import Mathlib

/-!
Tuple formats (`src/box/tuple_format.h`).

A shallow embedding of the inline functions of `tuple_format.h`:
the field accessor `tuple_field_raw`, the reference counter
`tuple_format_ref` and the registry accessors `tuple_format_id` /
`tuple_format_by_id`, together with the properties stated for them, and of
the two comparison functions of `src/box/sequence.h`.

Conventions of the embedding

* Memory is a total map from addresses to bytes, a `const char *` is an
  address, and `NULL` is `none` in an `Option` of addresses.
* `uint32_t *field_map` is indexed by the (negative) signed slot, so the
  field map is a map from `Int` indices to the stored 32-bit values.
* The MessagePack primitives `mp_decode_array` and `mp_next` come from the
  msgpuck library, which is not part of the translated sources: every
  definition takes them as a parameter (`MsgPuck`).  A concrete decoder,
  `msgpuck`, is supplied for evaluating the definitions on real bytes.
* `ERROR_INJECT(ERRINJ_TUPLE_FIELD, ...)` is a macro of `errinj.h`; whether
  the injection fires is the Boolean parameter `errinj`.
* `assert` is enabled: a failed assertion aborts, which is `none`.
-/

namespace Tarantool

/-! ## Constants -/

def UINT16_MAX : Nat := 65535
def INT32_MAX : Int := 2147483647
def UINT32_SIZE : Nat := 4294967296

def FORMAT_ID_MAX : Nat := UINT16_MAX - 1
def FORMAT_ID_NIL : Nat := UINT16_MAX
def FORMAT_REF_MAX : Int := INT32_MAX

/-! ## Data model -/

/-- Byte-addressed memory: the byte stored at every address. -/
abbrev Mem := Nat → Nat

/-- A `const char *`: an address of `Mem`. -/
abbrev Ptr := Nat

/-- The field map of a tuple, `uint32_t *field_map`, addressed by the signed
index used in `field_map[slot]`. -/
abbrev FieldMap := Int → Nat

/-- The `enum field_type` of `key_def.h`, kept as the integer value of the
enumerator. -/
abbrev field_type := Nat

/-- The `struct tuple_field_format`: the type of one field and its offset
slot, `INT32_MAX` when the field has no slot. -/
structure tuple_field_format where
  type : field_type
  offset_slot : Int

/-- The `struct tuple_format`.  The flexible array member `fields[]` is the
map from positions to descriptors; only positions below `field_count` are
ever read. -/
structure tuple_format where
  id : Nat
  refs : Int
  exact_field_count : Nat
  field_count : Nat
  field_map_size : Nat
  fields : Nat → tuple_field_format

/-- The two msgpuck primitives used by the tuple format layer.
`mp_decode_array mem p` is the decoded array length and the pointer advanced
past the array header; `mp_next mem p` is the pointer advanced past one
encoded value. -/
structure MsgPuck where
  mp_decode_array : Mem → Ptr → Nat × Ptr
  mp_next : Mem → Ptr → Ptr

/-! ## The field accessor -/

/-- The loop `for (uint32_t k = 0; k < i; k++) mp_next(&tuple);` of
`tuple_field_raw`, started at counter `k` and pointer `tuple`. -/
def mp_next_loop (mp : MsgPuck) (mem : Mem) (i : Nat) (k : Nat) (tuple : Ptr) : Ptr :=
  if k < i then mp_next_loop mp mem i (k + 1) (mp.mp_next mem tuple) else tuple
termination_by i - k

/-- The part of `tuple_field_raw` after the `if (likely(i < field_count))`
block: the error injection point and the linear walk over the array. -/
def tuple_field_raw_slow (mp : MsgPuck) (errinj : Bool) (mem : Mem) (tuple : Ptr)
    (i : Nat) : Option Ptr :=
  if errinj then none
  else
    let size := (mp.mp_decode_array mem tuple).1
    let tuple1 := (mp.mp_decode_array mem tuple).2
    if i ≥ size then none
    else some (mp_next_loop mp mem i 0 tuple1)

/-- The function `tuple_field_raw(format, tuple, field_map, i)`; the result
`none` is `NULL`. -/
def tuple_field_raw (mp : MsgPuck) (errinj : Bool) (format : tuple_format) (mem : Mem)
    (tuple : Ptr) (field_map : FieldMap) (i : Nat) : Option Ptr :=
  if i < format.field_count then
    if i = 0 then
      some (mp.mp_decode_array mem tuple).2
    else if (format.fields i).offset_slot ≠ INT32_MAX then
      let slot := (format.fields i).offset_slot
      some (tuple + field_map slot)
    else tuple_field_raw_slow mp errinj mem tuple i
  else tuple_field_raw_slow mp errinj mem tuple i

/-- The position of field `i` found by the linear walk: decode the array
header, then `i` times `mp_next`. -/
def linear_skip (mp : MsgPuck) (mem : Mem) (tuple : Ptr) (i : Nat) : Ptr :=
  (mp.mp_next mem)^[i] (mp.mp_decode_array mem tuple).2

/-! ## A concrete MessagePack decoder -/

def mp_load_u8 (mem : Mem) (p : Ptr) : Nat := mem p % 256

def mp_load_u16 (mem : Mem) (p : Ptr) : Nat :=
  mp_load_u8 mem p * 256 + mp_load_u8 mem (p + 1)

def mp_load_u32 (mem : Mem) (p : Ptr) : Nat :=
  mp_load_u16 mem p * 65536 + mp_load_u16 mem (p + 2)

/-- Modelled from the spec: the decode-array-header primitive (msgpuck's
`mp_decode_array`, not part of the sources) for the MessagePack encoding:
`fixarray` (0x90..0x9f), `array 16` (0xdc) and `array 32` (0xdd).  Any other
leading byte is outside the primitive's contract and decodes as an empty
array. -/
def msgpuck_decode_array (mem : Mem) (p : Ptr) : Nat × Ptr :=
  let c := mp_load_u8 mem p
  if 0x90 ≤ c ∧ c ≤ 0x9f then (c - 0x90, p + 1)
  else if c = 0xdc then (mp_load_u16 mem (p + 1), p + 3)
  else if c = 0xdd then (mp_load_u32 mem (p + 1), p + 5)
  else (0, p + 1)

/-- One iteration of the skip-one-value primitive on the MessagePack
encoding: the pointer advanced past the header and payload of the value at
`p`, and the number of nested values that still have to be skipped. -/
def msgpuck_skip_header (mem : Mem) (p : Ptr) : Ptr × Nat :=
  let c := mp_load_u8 mem p
  if c ≤ 0x7f then (p + 1, 0)
  else if c ≤ 0x8f then (p + 1, 2 * (c - 0x80))
  else if c ≤ 0x9f then (p + 1, c - 0x90)
  else if c ≤ 0xbf then (p + 1 + (c - 0xa0), 0)
  else if c ≤ 0xc3 then (p + 1, 0)
  else if c = 0xc4 then (p + 2 + mp_load_u8 mem (p + 1), 0)
  else if c = 0xc5 then (p + 3 + mp_load_u16 mem (p + 1), 0)
  else if c = 0xc6 then (p + 5 + mp_load_u32 mem (p + 1), 0)
  else if c = 0xc7 then (p + 3 + mp_load_u8 mem (p + 1), 0)
  else if c = 0xc8 then (p + 4 + mp_load_u16 mem (p + 1), 0)
  else if c = 0xc9 then (p + 6 + mp_load_u32 mem (p + 1), 0)
  else if c = 0xca then (p + 5, 0)
  else if c = 0xcb then (p + 9, 0)
  else if c = 0xcc then (p + 2, 0)
  else if c = 0xcd then (p + 3, 0)
  else if c = 0xce then (p + 5, 0)
  else if c = 0xcf then (p + 9, 0)
  else if c = 0xd0 then (p + 2, 0)
  else if c = 0xd1 then (p + 3, 0)
  else if c = 0xd2 then (p + 5, 0)
  else if c = 0xd3 then (p + 9, 0)
  else if c = 0xd4 then (p + 3, 0)
  else if c = 0xd5 then (p + 4, 0)
  else if c = 0xd6 then (p + 6, 0)
  else if c = 0xd7 then (p + 10, 0)
  else if c = 0xd8 then (p + 18, 0)
  else if c = 0xd9 then (p + 2 + mp_load_u8 mem (p + 1), 0)
  else if c = 0xda then (p + 3 + mp_load_u16 mem (p + 1), 0)
  else if c = 0xdb then (p + 5 + mp_load_u32 mem (p + 1), 0)
  else if c = 0xdc then (p + 3, mp_load_u16 mem (p + 1))
  else if c = 0xdd then (p + 5, mp_load_u32 mem (p + 1))
  else if c = 0xde then (p + 3, 2 * mp_load_u16 mem (p + 1))
  else if c = 0xdf then (p + 5, 2 * mp_load_u32 mem (p + 1))
  else (p + 1, 0)

/-- The loop of the skip-one-value primitive: `k` values remain to be
skipped from `p`.  The walk is cut after `fuel` headers. -/
def msgpuck_next_loop (mem : Mem) : Nat → Nat → Ptr → Ptr
  | 0, _, p => p
  | fuel + 1, k, p =>
    if k = 0 then p
    else
      msgpuck_next_loop mem fuel (k - 1 + (msgpuck_skip_header mem p).2)
        (msgpuck_skip_header mem p).1

/-- Modelled from the spec: the codec primitives that the tuple format layer
requires but does not implement (msgpuck, not part of the sources), for the
MessagePack encoding.  `fuel` bounds the number of value headers one
`mp_next` may visit. -/
def msgpuck (fuel : Nat) : MsgPuck where
  mp_decode_array := msgpuck_decode_array
  mp_next := fun mem p => msgpuck_next_loop mem fuel 1 p

/-- The memory that holds the given bytes from address 0 on, and zero
elsewhere. -/
def mem_of (bytes : List Nat) : Mem := fun a => bytes.getD a 0

/-- The record `["a", "b", 42]`: bytes `93 a1 61 a1 62 2a`. -/
def record_a_b_42 : Mem := mem_of [0x93, 0xa1, 0x61, 0xa1, 0x62, 0x2a]

/-- The empty array: the single byte `90`. -/
def record_empty : Mem := mem_of [0x90]

/-- The record `[1, 2]`: bytes `92 01 02`. -/
def record_1_2 : Mem := mem_of [0x92, 0x01, 0x02]

/-- A descriptor table given by the list of offset slots of its first
positions (type `0`), and "no slot" beyond. -/
def fields_of (slots : List Int) : Nat → tuple_field_format :=
  fun i => ⟨0, slots.getD i INT32_MAX⟩

/-- A format with the given descriptor count and slots, with identifier 0
and one reference. -/
def format_of (field_count : Nat) (slots : List Int) : tuple_format where
  id := 0
  refs := 1
  exact_field_count := 0
  field_count := field_count
  field_map_size := 4 * (slots.filter (fun s => s ≠ INT32_MAX)).length
  fields := fields_of slots

/-- The format of the key parts `[(2, int), (0, string)]`: three positions,
a slot (`-1`) for position 2 only. -/
def format_pos2 : tuple_format := format_of 3 [INT32_MAX, INT32_MAX, -1]

/-! ## The field-map builder -/

/-- The byte offset of `pos` from the start of the record, as the `uint32_t`
value that a slot of the field map holds. -/
def field_offset (tuple pos : Ptr) : Nat :=
  (((pos : Int) - (tuple : Int)) % (UINT32_SIZE : Int)).toNat

/-- Modelled from the spec: the walk of `tuple_init_field_map` (declared in
the header, its body is not part of the sources), spec section 4.3: for `i`
from its start value while `i < size` and `i < format.field_count`, if
position `i` has an assigned slot the current byte offset of field `i` is
recorded in that slot, then one structural skip advances past field `i`. -/
def init_field_map_loop (mp : MsgPuck) (format : tuple_format) (mem : Mem) (tuple : Ptr)
    (size : Nat) (i : Nat) (pos : Ptr) (field_map : FieldMap) : FieldMap :=
  if i < size ∧ i < format.field_count then
    init_field_map_loop mp format mem tuple size (i + 1) (mp.mp_next mem pos)
      (if (format.fields i).offset_slot ≠ INT32_MAX then
        Function.update field_map (format.fields i).offset_slot (field_offset tuple pos)
      else field_map)
  else field_map
termination_by format.field_count - i

/-- Modelled from the spec: the format-mismatch condition of the builder,
spec sections 4.3 and 7: the record misses a field that the format indexes
through a slot (some position with a slot is not below the array
length). -/
def format_mismatch (format : tuple_format) (size : Nat) : Bool :=
  (List.range format.field_count).any
    (fun p => decide ((format.fields p).offset_slot ≠ INT32_MAX) && decide (size ≤ p))

/-- Modelled from the spec: `tuple_init_field_map(format, field_map, tuple)`
(declared in the header, its body is not part of the sources), spec section
4.3: decode the outer array length, fail with the format-mismatch condition
(`none`) when the record misses an indexed field, else walk the fields from
position 0 and return the filled field map. -/
def tuple_init_field_map (mp : MsgPuck) (format : tuple_format) (field_map : FieldMap)
    (mem : Mem) (tuple : Ptr) : Option FieldMap :=
  let size := (mp.mp_decode_array mem tuple).1
  let pos := (mp.mp_decode_array mem tuple).2
  if format_mismatch format size then none
  else some (init_field_map_loop mp format mem tuple size 0 pos field_map)

/-- Modelled from the spec: the result that `tuple_init_field_map` (declared
in the header, its body is not part of the sources) leaves in the field map,
as the header documents it (`tuple + off_i = field_i`) and spec section 4.3
describes it: for each position below `field_count` that has an offset slot,
the byte offset of that field from the start of the record is stored in the
slot. -/
def field_map_filled (mp : MsgPuck) (format : tuple_format) (mem : Mem) (tuple : Ptr)
    (field_map : FieldMap) : Prop :=
  ∀ j, j < format.field_count → (format.fields j).offset_slot ≠ INT32_MAX →
    tuple + field_map (format.fields j).offset_slot = linear_skip mp mem tuple j

/-! ## Reference counting -/

/-- The value of an `int` expression: the exact result reduced to the 32-bit
two-complement range. -/
def wrap_int32 (x : Int) : Int := (x + 2147483648) % 4294967296 - 2147483648

/-- The conversion `(uint64_t)x`. -/
def to_uint64 (x : Int) : Int := x % 18446744073709551616

/-- The first assertion of `tuple_format_ref`:
`format->refs + count >= 0`, in `int` arithmetic. -/
def ref_assert_nonneg (refs count : Int) : Bool :=
  decide (wrap_int32 (refs + count) ≥ 0)

/-- The second assertion of `tuple_format_ref`:
`(uint64_t)format->refs + count <= FORMAT_REF_MAX`, in `uint64_t`
arithmetic. -/
def ref_assert_max (refs count : Int) : Bool :=
  decide (to_uint64 (to_uint64 refs + to_uint64 count) ≤ to_uint64 FORMAT_REF_MAX)

/-- The function `tuple_format_ref(format, count)`.  The state is the format
and the log of the calls of the external `tuple_format_delete` (the format
passed to each call, oldest first); `none` is an assertion failure. -/
def tuple_format_ref (format : tuple_format) (count : Int) (deleted : List tuple_format) :
    Option (tuple_format × List tuple_format) :=
  if ref_assert_nonneg format.refs count = false then none
  else if ref_assert_max format.refs count = false then none
  else
    let format1 : tuple_format := { format with refs := wrap_int32 (format.refs + count) }
    if format1.refs = 0 then some (format1, deleted ++ [format1])
    else some (format1, deleted)

/-- A sequence of `tuple_format_ref` calls on the same format, one per
count, in order.  A delete call is only logged: the walk goes on with the
same object. -/
def tuple_format_ref_seq (format : tuple_format) (deleted : List tuple_format) :
    List Int → Option (tuple_format × List tuple_format)
  | [] => some (format, deleted)
  | count :: counts =>
    match tuple_format_ref format count deleted with
    | none => none
    | some st => tuple_format_ref_seq st.1 st.2 counts

/-! ## The registry -/

/-- The registry state: the global array `tuple_formats` of format pointers,
and the format object stored at each address. -/
structure registry where
  heap : Ptr → tuple_format
  tuple_formats : Nat → Ptr

/-- The function `tuple_format_id(format)`: asserts
`tuple_formats[format->id] == format` and returns `format->id`; `none` is
the assertion failure. -/
def tuple_format_id (reg : registry) (format : Ptr) : Option Nat :=
  if reg.tuple_formats (reg.heap format).id = format then some (reg.heap format).id
  else none

/-- The function `tuple_format_by_id(tuple_format_id)`: the array element
`tuple_formats[tuple_format_id]`. -/
def tuple_format_by_id (reg : registry) (tuple_format_id : Nat) : Ptr :=
  reg.tuple_formats tuple_format_id

/-- A registry in which the entries 1 and 2 both point to the object at
address 7, whose own id is 2. -/
def registry_mismatch : registry where
  heap := fun _ => { format_pos2 with id := 2 }
  tuple_formats := fun k => if k = 1 ∨ k = 2 then 7 else 0

/-- A registry in which entry `k` points to address `64 * (k + 1)` and the
object at that address has id `k`. -/
def registry_consistent : registry where
  heap := fun a => { format_pos2 with id := a / 64 - 1 }
  tuple_formats := fun k => 64 * (k + 1)

/-! ## Reads of the field map -/

/-- The function `tuple_field_raw` with its reads of the field map made
explicit: the result of the call, and the indices `s` of the entries
`field_map[s]` that the call reads, in order.  The code after the
`if (likely(i < field_count))` block does not mention `field_map`. -/
def tuple_field_raw_reads (mp : MsgPuck) (errinj : Bool) (format : tuple_format) (mem : Mem)
    (tuple : Ptr) (field_map : FieldMap) (i : Nat) : Option Ptr × List Int :=
  if i < format.field_count then
    if i = 0 then
      (some (mp.mp_decode_array mem tuple).2, [])
    else if (format.fields i).offset_slot ≠ INT32_MAX then
      let slot := (format.fields i).offset_slot
      (some (tuple + field_map slot), [slot])
    else (tuple_field_raw_slow mp errinj mem tuple i, [])
  else (tuple_field_raw_slow mp errinj mem tuple i, [])

/-! ## Sequence data (`src/box/sequence.h`) -/

/-- The `struct sequence_data`: the sequence id and the sequence value. -/
structure sequence_data where
  id : Nat
  value : Int

/-- The function `sequence_data_equal(data1, data2)`. -/
def sequence_data_equal (data1 data2 : sequence_data) : Bool :=
  decide (data1.id = data2.id)

/-- The function `sequence_data_equal_key(data, id)`. -/
def sequence_data_equal_key (data : sequence_data) (id : Nat) : Bool :=
  decide (data.id = id)

/-! ## The linear walk -/

theorem mp_next_loop_eq_iterate (mp : MsgPuck) (mem : Mem) (i : Nat) :
    ∀ (n k : Nat) (p : Ptr), k + n = i →
      mp_next_loop mp mem i k p = (mp.mp_next mem)^[n] p := by
  intro n
  induction n with
  | zero =>
    intro k p h
    rw [mp_next_loop, if_neg (by omega)]
    rfl
  | succ n ih =>
    intro k p h
    rw [mp_next_loop, if_pos (by omega), ih (k + 1) _ (by omega)]
    rfl

theorem mp_next_loop_zero (mp : MsgPuck) (mem : Mem) (i : Nat) (p : Ptr) :
    mp_next_loop mp mem i 0 p = (mp.mp_next mem)^[i] p :=
  mp_next_loop_eq_iterate mp mem i i 0 p (by omega)

theorem tuple_field_raw_slow_eq (mp : MsgPuck) (errinj : Bool) (mem : Mem) (tuple : Ptr)
    (i : Nat) :
    tuple_field_raw_slow mp errinj mem tuple i =
      if errinj then none
      else if (mp.mp_decode_array mem tuple).1 ≤ i then none
      else some (linear_skip mp mem tuple i) := by
  simp only [tuple_field_raw_slow, linear_skip, mp_next_loop_zero, ge_iff_le]

theorem tuple_field_raw_fallback (mp : MsgPuck) (errinj : Bool) (format : tuple_format)
    (mem : Mem) (tuple : Ptr) (field_map : FieldMap) (i : Nat)
    (h : format.field_count ≤ i ∨ (i ≠ 0 ∧ (format.fields i).offset_slot = INT32_MAX)) :
    tuple_field_raw mp errinj format mem tuple field_map i =
      tuple_field_raw_slow mp errinj mem tuple i := by
  unfold tuple_field_raw
  rcases h with h | ⟨h0, hs⟩
  · rw [if_neg (by omega)]
  · by_cases hlt : i < format.field_count
    · rw [if_pos hlt, if_neg h0, if_neg (by simp [hs])]
    · rw [if_neg hlt]

theorem tuple_field_raw_direct (mp : MsgPuck) (errinj : Bool) (format : tuple_format)
    (mem : Mem) (tuple : Ptr) (field_map : FieldMap) (i : Nat)
    (hlt : i < format.field_count) (h : i = 0 ∨ (format.fields i).offset_slot ≠ INT32_MAX) :
    tuple_field_raw mp errinj format mem tuple field_map i =
      if i = 0 then some (mp.mp_decode_array mem tuple).2
      else some (tuple + field_map (format.fields i).offset_slot) := by
  unfold tuple_field_raw
  rw [if_pos hlt]
  by_cases h0 : i = 0
  · rw [if_pos h0, if_pos h0]
  · rw [if_neg h0, if_neg h0, if_pos (h.resolve_left h0)]

/-! ## The field-map builder -/

theorem format_mismatch_false (format : tuple_format) (size : Nat)
    (h : format.field_count ≤ size) : format_mismatch format size = false := by
  unfold format_mismatch
  rw [List.any_eq_false]
  intro p hp
  have hlt : p < format.field_count := List.mem_range.mp hp
  have : ¬ size ≤ p := by omega
  simp [this]

theorem init_field_map_loop_frame (mp : MsgPuck) (format : tuple_format) (mem : Mem)
    (tuple : Ptr) (size : Nat) (s : Int) :
    ∀ (n i0 : Nat) (pos : Ptr) (fm : FieldMap), n = format.field_count - i0 →
      (∀ j, i0 ≤ j → j < format.field_count → (format.fields j).offset_slot ≠ s) →
      init_field_map_loop mp format mem tuple size i0 pos fm s = fm s := by
  intro n
  induction n with
  | zero =>
    intro i0 pos fm hn _
    rw [init_field_map_loop, if_neg (by omega)]
  | succ n ih =>
    intro i0 pos fm hn hs
    rw [init_field_map_loop]
    by_cases hc : i0 < size ∧ i0 < format.field_count
    · rw [if_pos hc, ih (i0 + 1) _ _ (by omega) (fun j hj hlt => hs j (by omega) hlt)]
      by_cases hslot : (format.fields i0).offset_slot ≠ INT32_MAX
      · rw [if_pos hslot, Function.update_noteq (Ne.symm (hs i0 (le_refl _) hc.2))]
      · rw [if_neg hslot]
    · rw [if_neg hc]

theorem init_field_map_loop_stores (mp : MsgPuck) (format : tuple_format) (mem : Mem)
    (tuple : Ptr) (size : Nat) (i : Nat) (hsize : i < size) (hfc : i < format.field_count)
    (hslot : (format.fields i).offset_slot ≠ INT32_MAX)
    (huniq : ∀ j, i < j → j < format.field_count →
      (format.fields j).offset_slot ≠ (format.fields i).offset_slot) :
    ∀ (n i0 : Nat) (pos : Ptr) (fm : FieldMap), i0 + n = i →
      init_field_map_loop mp format mem tuple size i0 pos fm (format.fields i).offset_slot =
        field_offset tuple ((mp.mp_next mem)^[n] pos) := by
  intro n
  induction n with
  | zero =>
    intro i0 pos fm hn
    have hi : i0 = i := by omega
    subst hi
    rw [init_field_map_loop, if_pos ⟨hsize, hfc⟩, if_pos hslot,
      init_field_map_loop_frame mp format mem tuple size _ _ (i0 + 1) _ _ rfl
        (fun j hj hlt => huniq j (by omega) hlt)]
    simp
  | succ n ih =>
    intro i0 pos fm hn
    rw [init_field_map_loop, if_pos ⟨by omega, by omega⟩, ih (i0 + 1) _ _ (by omega)]
    rfl

theorem field_offset_add (tuple pos : Nat) (h1 : tuple ≤ pos) (h2 : pos < tuple + UINT32_SIZE) :
    tuple + field_offset tuple pos = pos := by
  have h3 : (UINT32_SIZE : Int) = 4294967296 := rfl
  have h4 : UINT32_SIZE = 4294967296 := rfl
  unfold field_offset
  rw [h3]
  rw [h4] at h2
  omega

theorem init_field_map_loop_step (mp : MsgPuck) (format : tuple_format) (mem : Mem)
    (tuple : Ptr) (size i : Nat) (pos : Ptr) (fm : FieldMap)
    (h : i < size ∧ i < format.field_count) :
    init_field_map_loop mp format mem tuple size i pos fm =
      init_field_map_loop mp format mem tuple size (i + 1) (mp.mp_next mem pos)
        (if (format.fields i).offset_slot ≠ INT32_MAX then
          Function.update fm (format.fields i).offset_slot (field_offset tuple pos)
        else fm) := by
  rw [init_field_map_loop, if_pos h]

theorem init_field_map_loop_stop (mp : MsgPuck) (format : tuple_format) (mem : Mem)
    (tuple : Ptr) (size i : Nat) (pos : Ptr) (fm : FieldMap)
    (h : ¬ (i < size ∧ i < format.field_count)) :
    init_field_map_loop mp format mem tuple size i pos fm = fm := by
  rw [init_field_map_loop, if_neg h]

theorem tuple_init_field_map_fills (mp : MsgPuck) (format : tuple_format)
    (field_map0 : FieldMap) (mem : Mem) (tuple : Ptr)
    (hsize : format.field_count ≤ (mp.mp_decode_array mem tuple).1)
    (huniq : ∀ i j, i < j → j < format.field_count →
      (format.fields j).offset_slot ≠ (format.fields i).offset_slot)
    (hfit : ∀ j, j < format.field_count →
      tuple ≤ linear_skip mp mem tuple j ∧ linear_skip mp mem tuple j < tuple + UINT32_SIZE) :
    ∃ fm, tuple_init_field_map mp format field_map0 mem tuple = some fm ∧
      field_map_filled mp format mem tuple fm := by
  have hfm : tuple_init_field_map mp format field_map0 mem tuple =
      some (init_field_map_loop mp format mem tuple (mp.mp_decode_array mem tuple).1 0
        (mp.mp_decode_array mem tuple).2 field_map0) := by
    unfold tuple_init_field_map
    simp only [format_mismatch_false format _ hsize]
    rfl
  refine ⟨_, hfm, ?_⟩
  intro j hj hslot
  rw [init_field_map_loop_stores mp format mem tuple _ j (by omega) hj hslot
    (fun k hjk hk => huniq j k hjk hk) j 0 _ _ (by omega)]
  exact field_offset_add tuple _ (hfit j hj).1 (hfit j hj).2

/-! ## Reference counting -/

theorem wrap_int32_of_range (x : Int) (h0 : 0 ≤ x) (h1 : x ≤ FORMAT_REF_MAX) :
    wrap_int32 x = x := by
  have hmax : FORMAT_REF_MAX = 2147483647 := rfl
  unfold wrap_int32
  omega

theorem ref_assert_nonneg_iff (refs count : Int) :
    ref_assert_nonneg refs count = true ↔ 0 ≤ wrap_int32 (refs + count) := by
  simp [ref_assert_nonneg]

theorem ref_assert_max_iff (refs count : Int) :
    ref_assert_max refs count = true ↔
      (refs % 18446744073709551616 + count % 18446744073709551616) % 18446744073709551616
        ≤ 2147483647 := by
  have hmax : FORMAT_REF_MAX % 18446744073709551616 = 2147483647 := by decide
  unfold ref_assert_max to_uint64
  rw [hmax, decide_eq_true_iff]

theorem ref_asserts_of_range (refs count : Int) (h0 : 0 ≤ refs + count)
    (h1 : refs + count ≤ FORMAT_REF_MAX) :
    ref_assert_nonneg refs count = true ∧ ref_assert_max refs count = true := by
  have hmax : FORMAT_REF_MAX = 2147483647 := rfl
  rw [ref_assert_nonneg_iff, ref_assert_max_iff, wrap_int32_of_range _ h0 h1]
  constructor <;> omega

theorem tuple_format_ref_of_range (format : tuple_format) (count : Int)
    (deleted : List tuple_format) (h0 : 0 ≤ format.refs + count)
    (h1 : format.refs + count ≤ FORMAT_REF_MAX) :
    tuple_format_ref format count deleted =
      some ({ format with refs := format.refs + count },
        if format.refs + count = 0 then
          deleted ++ [{ format with refs := format.refs + count }]
        else deleted) := by
  obtain ⟨ha, hb⟩ := ref_asserts_of_range format.refs count h0 h1
  unfold tuple_format_ref
  simp only [ha, hb, wrap_int32_of_range _ h0 h1]
  by_cases hz : format.refs + count = 0
  · simp [hz]
  · simp [hz]

theorem tuple_format_ref_abort (format : tuple_format) (count : Int)
    (deleted : List tuple_format)
    (h : ref_assert_nonneg format.refs count = false ∨ ref_assert_max format.refs count = false) :
    tuple_format_ref format count deleted = none := by
  unfold tuple_format_ref
  rcases h with h | h
  · simp [h]
  · simp [h]

theorem tuple_format_ref_seq_append (counts1 counts2 : List Int) :
    ∀ (format : tuple_format) (deleted : List tuple_format),
      tuple_format_ref_seq format deleted (counts1 ++ counts2) =
        (tuple_format_ref_seq format deleted counts1).bind
          (fun st => tuple_format_ref_seq st.1 st.2 counts2) := by
  induction counts1 with
  | nil =>
    intro format deleted
    rfl
  | cons c cs ih =>
    intro format deleted
    simp only [List.cons_append, tuple_format_ref_seq]
    cases hc : tuple_format_ref format c deleted with
    | none => rfl
    | some st => exact ih st.1 st.2

theorem tuple_format_ref_seq_positive (counts : List Int) :
    ∀ (format : tuple_format) (deleted : List tuple_format),
      (∀ n, 0 < n → n ≤ counts.length →
        0 < format.refs + (counts.take n).sum ∧
        format.refs + (counts.take n).sum ≤ FORMAT_REF_MAX) →
      tuple_format_ref_seq format deleted counts =
        some ({ format with refs := format.refs + counts.sum }, deleted) := by
  induction counts with
  | nil =>
    intro format deleted _
    simp [tuple_format_ref_seq]
  | cons c cs ih =>
    intro format deleted h
    have h1 := h 1 (by omega) (by simp)
    simp only [List.take_succ_cons, List.take_zero, List.sum_cons, List.sum_nil,
      add_zero] at h1
    simp only [tuple_format_ref_seq]
    rw [tuple_format_ref_of_range format c deleted (by omega) h1.2, if_neg (by omega)]
    simp only
    rw [ih]
    · simp only [List.sum_cons, add_assoc]
    · intro n hn hlen
      have hn1 := h (n + 1) (by omega) (by simpa using hlen)
      simp only [List.take_succ_cons, List.sum_cons] at hn1
      simp only
      omega

theorem tuple_format_ref_seq_cons_abort (format : tuple_format) (deleted : List tuple_format)
    (count : Int) (counts : List Int) (h : tuple_format_ref format count deleted = none) :
    tuple_format_ref_seq format deleted (count :: counts) = none := by
  simp only [tuple_format_ref_seq, h]

theorem sum_take_replicate_one (n m : Nat) (h : n ≤ m) :
    ((List.replicate m (1 : Int)).take n).sum = n := by
  rw [List.take_replicate, min_eq_left h, List.sum_replicate, nsmul_one]

theorem tuple_format_ref_seq_overflow (format : tuple_format) (hfresh : format.refs = 0) :
    tuple_format_ref_seq format []
      (List.replicate 2147483648 1 ++ List.replicate 2147483648 (-1)) = none := by
  have hmax : FORMAT_REF_MAX = 2147483647 := rfl
  have e : List.replicate 2147483648 (1 : Int) = List.replicate 2147483647 1 ++ [1] :=
    List.replicate_succ' 2147483647 (1 : Int)
  have hpos : tuple_format_ref_seq format [] (List.replicate 2147483647 1) =
      some ({ format with refs := format.refs + (List.replicate 2147483647 (1 : Int)).sum },
        []) := by
    apply tuple_format_ref_seq_positive
    intro n hn hlen
    rw [List.length_replicate] at hlen
    rw [sum_take_replicate_one n _ hlen, hfresh]
    omega
  have hs : (List.replicate 2147483647 (1 : Int)).sum = 2147483647 := by
    rw [List.sum_replicate, nsmul_one]
    rfl
  rw [e, List.append_assoc, tuple_format_ref_seq_append, hpos, hs, hfresh]
  rw [Option.some_bind, List.singleton_append]
  exact tuple_format_ref_seq_cons_abort _ _ _ _
    (tuple_format_ref_abort _ _ _ (Or.inl (show ref_assert_nonneg (0 + 2147483647) 1 = false by
      decide)))

/-! ## Claims -/

/-- C1: for every format and every record with at least `field_count`
fields, if the field map is filled as `tuple_init_field_map` fills it (for
each position below `field_count` that has an offset slot, the byte offset
of the field from the start of the record is stored in that slot), then for
every position `i` with `0 < i < field_count` whose offset slot is not
`INT32_MAX`, `tuple_field_raw` returns exactly the position obtained by
decoding the array header and performing `i` `mp_next` skips, which is the
result of the fallback walk for `i`. -/
theorem tuple_field_raw_round_trip (mp : MsgPuck) (errinj : Bool) (format : tuple_format)
    (mem : Mem) (tuple : Ptr) (field_map : FieldMap) (i : Nat)
    (hsize : format.field_count ≤ (mp.mp_decode_array mem tuple).1)
    (hfilled : field_map_filled mp format mem tuple field_map)
    (h0 : 0 < i) (hlt : i < format.field_count)
    (hslot : (format.fields i).offset_slot ≠ INT32_MAX) :
    tuple_field_raw mp errinj format mem tuple field_map i =
      some ((mp.mp_next mem)^[i] (mp.mp_decode_array mem tuple).2) ∧
    tuple_field_raw mp errinj format mem tuple field_map i =
      tuple_field_raw_slow mp false mem tuple i := by
  have hraw : tuple_field_raw mp errinj format mem tuple field_map i =
      some (linear_skip mp mem tuple i) := by
    rw [tuple_field_raw_direct mp errinj format mem tuple field_map i hlt (Or.inr hslot),
      if_neg (by omega), hfilled i hlt hslot]
  refine ⟨hraw, ?_⟩
  rw [hraw, tuple_field_raw_slow_eq]
  simp only [Bool.false_eq_true, if_false]
  rw [if_neg (by omega)]

/-- Witness of C1: on the record `["a", "b", 42]` under the format that
indexes position 2, the builder stores the offset 5 in the slot `-1`, the
field map so filled holds the offset of every position with a slot, and the
accessor returns address 5 for field 2, the position of the linear walk. -/
theorem tuple_field_raw_round_trip_witness :
    tuple_init_field_map (msgpuck 8) format_pos2 (fun _ => 0) record_a_b_42 0 =
      some (Function.update (fun _ => 0) (-1) 5) ∧
    field_map_filled (msgpuck 8) format_pos2 record_a_b_42 0
      (Function.update (fun _ => 0) (-1) 5) ∧
    linear_skip (msgpuck 8) record_a_b_42 0 2 = 5 ∧
    tuple_field_raw (msgpuck 8) false format_pos2 record_a_b_42 0
      (Function.update (fun _ => 0) (-1) 5) 2 = some 5 := by
  have hfilled : field_map_filled (msgpuck 8) format_pos2 record_a_b_42 0
      (Function.update (fun _ => 0) (-1) 5) := by
    intro j hj
    have h3 : j < 3 := hj
    interval_cases j <;> decide
  refine ⟨?_, hfilled, by decide, ?_⟩
  · unfold tuple_init_field_map
    rw [if_neg (by decide),
      init_field_map_loop_step _ _ _ _ _ _ _ _ (by decide),
      init_field_map_loop_step _ _ _ _ _ _ _ _ (by decide),
      init_field_map_loop_step _ _ _ _ _ _ _ _ (by decide),
      init_field_map_loop_stop _ _ _ _ _ _ _ _ (by decide)]
    rfl
  · exact (tuple_field_raw_round_trip (msgpuck 8) false format_pos2 record_a_b_42 0
      (Function.update (fun _ => 0) (-1) 5) 2 (by decide) hfilled (by decide) (by decide)
      (by decide)).1.trans (by decide)

/-- C2 (counterexample): on the bypass path and on the cached path
`tuple_field_raw` returns a pointer for a field number that is not below the
decoded array length: field 0 of the empty array under a format with one
descriptor, and field 2 of a two-field array under a format that gives
position 2 a slot. -/
theorem tuple_field_raw_absent_counterexample :
    (msgpuck 8).mp_decode_array record_empty 0 = (0, 1) ∧
    tuple_field_raw (msgpuck 8) false (format_of 1 [INT32_MAX]) record_empty 0
      (fun _ => 0) 0 = some 1 ∧
    (msgpuck 8).mp_decode_array record_1_2 0 = (2, 1) ∧
    tuple_field_raw (msgpuck 8) false format_pos2 record_1_2 0 (fun _ => 3) 2 = some 3 := by
  decide

/-- C2 (amended): for a field number `i` that is not below the decoded array
length, `tuple_field_raw` returns NULL exactly when the access is served by
the fallback path (`i >= field_count`, or `i > 0` without an offset slot);
the bypass and cached paths return a pointer without looking at the length.
Hence NULL is returned for every such `i` when the record has at least
`field_count` fields. -/
theorem tuple_field_raw_absent (mp : MsgPuck) (errinj : Bool) (format : tuple_format)
    (mem : Mem) (tuple : Ptr) (field_map : FieldMap) (i : Nat)
    (h : (mp.mp_decode_array mem tuple).1 ≤ i) :
    (tuple_field_raw mp errinj format mem tuple field_map i = none ↔
      (format.field_count ≤ i ∨ (i ≠ 0 ∧ (format.fields i).offset_slot = INT32_MAX))) ∧
    (format.field_count ≤ (mp.mp_decode_array mem tuple).1 →
      tuple_field_raw mp errinj format mem tuple field_map i = none) := by
  have hslow : tuple_field_raw_slow mp errinj mem tuple i = none := by
    rw [tuple_field_raw_slow_eq]
    by_cases he : errinj = true
    · rw [if_pos he]
    · rw [if_neg he, if_pos h]
  have hfb : (format.field_count ≤ i ∨ (i ≠ 0 ∧ (format.fields i).offset_slot = INT32_MAX)) →
      tuple_field_raw mp errinj format mem tuple field_map i = none := by
    intro hp
    rw [tuple_field_raw_fallback mp errinj format mem tuple field_map i hp, hslow]
  refine ⟨⟨?_, hfb⟩, fun hfc => hfb (Or.inl (le_trans hfc h))⟩
  intro hnone
  by_contra hp
  have hlt : i < format.field_count := by
    by_contra hge
    exact hp (Or.inl (by omega))
  have hd : i = 0 ∨ (format.fields i).offset_slot ≠ INT32_MAX := by
    by_cases h0 : i = 0
    · exact Or.inl h0
    · exact Or.inr (fun hs => hp (Or.inr ⟨h0, hs⟩))
  rw [tuple_field_raw_direct mp errinj format mem tuple field_map i hlt hd] at hnone
  split at hnone <;> simp at hnone

/-- Witness of C2 (amended): field 5 of the record `["a", "b", 42]` under
the format that indexes position 2. -/
theorem tuple_field_raw_absent_witness :
    ((msgpuck 8).mp_decode_array record_a_b_42 0).1 ≤ 5 ∧
    tuple_field_raw (msgpuck 8) false format_pos2 record_a_b_42 0 (fun _ => 5) 5 = none :=
  ⟨by decide,
   (tuple_field_raw_absent (msgpuck 8) false format_pos2 record_a_b_42 0 (fun _ => 5) 5
      (by decide)).2 (by decide)⟩

/-- C3 (counterexample): under a format with `field_count = 0`, field 0 of
the empty array is NULL, not the position after the array header (which is
address 1). -/
theorem tuple_field_raw_zero_counterexample :
    ((msgpuck 8).mp_decode_array record_empty 0).2 = 1 ∧
    tuple_field_raw (msgpuck 8) false (format_of 0 []) record_empty 0 (fun _ => 0) 0 = none := by
  constructor
  · decide
  · rw [tuple_field_raw_fallback _ _ _ _ _ _ _ (Or.inl (by decide)), tuple_field_raw_slow_eq]
    decide

/-- C3 (amended): `tuple_field_raw(format, record, field_map, 0)` is the same
for any two field maps; when `field_count >= 1` it is the position
immediately after the array header, whatever `fields[0].offset_slot` is; when
`field_count = 0` the access goes through the fallback path and is that
position only if error injection is off and the array is not empty, and NULL
otherwise. -/
theorem tuple_field_raw_zero (mp : MsgPuck) (errinj : Bool) (format : tuple_format)
    (mem : Mem) (tuple : Ptr) (field_map : FieldMap) :
    (∀ field_map2 : FieldMap,
      tuple_field_raw mp errinj format mem tuple field_map2 0 =
        tuple_field_raw mp errinj format mem tuple field_map 0) ∧
    tuple_field_raw mp errinj format mem tuple field_map 0 =
      if 0 < format.field_count then some (mp.mp_decode_array mem tuple).2
      else if errinj = true ∨ (mp.mp_decode_array mem tuple).1 = 0 then none
      else some (mp.mp_decode_array mem tuple).2 := by
  have key : ∀ fm : FieldMap, tuple_field_raw mp errinj format mem tuple fm 0 =
      if 0 < format.field_count then some (mp.mp_decode_array mem tuple).2
      else if errinj = true ∨ (mp.mp_decode_array mem tuple).1 = 0 then none
      else some (mp.mp_decode_array mem tuple).2 := by
    intro fm
    by_cases hfc : 0 < format.field_count
    · rw [if_pos hfc, tuple_field_raw_direct mp errinj format mem tuple fm 0 hfc (Or.inl rfl)]
      rfl
    · rw [if_neg hfc, tuple_field_raw_fallback mp errinj format mem tuple fm 0
        (Or.inl (by omega)), tuple_field_raw_slow_eq]
      by_cases he : errinj = true
      · rw [if_pos he, if_pos (Or.inl he)]
      · rw [if_neg he]
        by_cases hs : (mp.mp_decode_array mem tuple).1 = 0
        · rw [if_pos (by omega), if_pos (Or.inr hs)]
        · rw [if_neg (by omega), if_neg (by tauto)]
          rfl
  exact ⟨fun fm2 => by rw [key fm2, key field_map], key field_map⟩

/-- C4: with error injection disabled, for `i >= field_count`, or
`0 < i < field_count` with `fields[i].offset_slot = INT32_MAX`,
`tuple_field_raw` returns NULL if and only if `i >= size`, the length decoded
by `mp_decode_array`; otherwise it returns the position reached by exactly
`i` applications of `mp_next` from the position just after the array header;
the result is the same for every field map. -/
theorem tuple_field_raw_fallback_path (mp : MsgPuck) (format : tuple_format) (mem : Mem)
    (tuple : Ptr) (field_map : FieldMap) (i : Nat)
    (h : format.field_count ≤ i ∨
      (0 < i ∧ i < format.field_count ∧ (format.fields i).offset_slot = INT32_MAX)) :
    (tuple_field_raw mp false format mem tuple field_map i = none ↔
      (mp.mp_decode_array mem tuple).1 ≤ i) ∧
    (¬ (mp.mp_decode_array mem tuple).1 ≤ i →
      tuple_field_raw mp false format mem tuple field_map i =
        some ((mp.mp_next mem)^[i] (mp.mp_decode_array mem tuple).2)) ∧
    (∀ field_map2 : FieldMap,
      tuple_field_raw mp false format mem tuple field_map2 i =
        tuple_field_raw mp false format mem tuple field_map i) := by
  have hp : format.field_count ≤ i ∨ (i ≠ 0 ∧ (format.fields i).offset_slot = INT32_MAX) := by
    rcases h with h | ⟨h0, _, hs⟩
    · exact Or.inl h
    · exact Or.inr ⟨by omega, hs⟩
  have key : ∀ fm : FieldMap, tuple_field_raw mp false format mem tuple fm i =
      if (mp.mp_decode_array mem tuple).1 ≤ i then none
      else some ((mp.mp_next mem)^[i] (mp.mp_decode_array mem tuple).2) := by
    intro fm
    rw [tuple_field_raw_fallback mp false format mem tuple fm i hp, tuple_field_raw_slow_eq]
    simp [linear_skip]
  refine ⟨?_, ?_, fun fm2 => by rw [key fm2, key field_map]⟩
  · rw [key field_map]
    by_cases hs : (mp.mp_decode_array mem tuple).1 ≤ i
    · simp [hs]
    · simp [hs]
  · intro hs
    rw [key field_map, if_neg hs]

/-- Witness of C4: field 1 of the record `["a", "b", 42]`, a position without
a slot under the format that indexes position 2, is at address 3. -/
theorem tuple_field_raw_fallback_path_witness :
    (0 < 1 ∧ 1 < format_pos2.field_count ∧ (format_pos2.fields 1).offset_slot = INT32_MAX) ∧
    tuple_field_raw (msgpuck 8) false format_pos2 record_a_b_42 0 (fun _ => 5) 1 = some 3 :=
  ⟨by decide,
   ((tuple_field_raw_fallback_path (msgpuck 8) format_pos2 record_a_b_42 0 (fun _ => 5) 1
      (Or.inr (by decide))).2.1 (by decide)).trans (by decide)⟩

/-- C5: for `0 < i < field_count` with `fields[i].offset_slot = s` different
from `INT32_MAX`, `tuple_field_raw` returns the record start plus
`field_map[s]`; the result does not depend on the bytes of the record, on the
decoder or on the error injection: two records with the same start and the
same field-map entry yield the same result. -/
theorem tuple_field_raw_cached_path (mp : MsgPuck) (errinj : Bool) (format : tuple_format)
    (mem : Mem) (tuple : Ptr) (field_map : FieldMap) (i : Nat)
    (h0 : 0 < i) (hlt : i < format.field_count)
    (hs : (format.fields i).offset_slot ≠ INT32_MAX) :
    tuple_field_raw mp errinj format mem tuple field_map i =
      some (tuple + field_map (format.fields i).offset_slot) ∧
    (∀ (mp2 : MsgPuck) (errinj2 : Bool) (mem2 : Mem) (field_map2 : FieldMap),
      field_map2 (format.fields i).offset_slot = field_map (format.fields i).offset_slot →
      tuple_field_raw mp2 errinj2 format mem2 tuple field_map2 i =
        tuple_field_raw mp errinj format mem tuple field_map i) := by
  have key : ∀ (mp1 : MsgPuck) (e : Bool) (m : Mem) (fm : FieldMap),
      tuple_field_raw mp1 e format m tuple fm i =
        some (tuple + fm (format.fields i).offset_slot) := by
    intro mp1 e m fm
    rw [tuple_field_raw_direct mp1 e format m tuple fm i hlt (Or.inr hs), if_neg (by omega)]
  exact ⟨key mp errinj mem field_map, fun mp2 e2 m2 fm2 hfm => by
    rw [key mp2 e2 m2 fm2, key mp errinj mem field_map, hfm]⟩

/-- Witness of C5: field 2 of the record `["a", "b", 42]` with the slot
value 5 is at address 5. -/
theorem tuple_field_raw_cached_path_witness :
    (0 < 2 ∧ 2 < format_pos2.field_count ∧ (format_pos2.fields 2).offset_slot ≠ INT32_MAX) ∧
    tuple_field_raw (msgpuck 8) false format_pos2 record_a_b_42 0 (fun _ => 5) 2 = some 5 :=
  ⟨by decide,
   (tuple_field_raw_cached_path (msgpuck 8) false format_pos2 record_a_b_42 0 (fun _ => 5) 2
      (by decide) (by decide) (by decide)).1⟩

/-- C6: for every format with reference count `r` and every count with
`0 <= r + count <= FORMAT_REF_MAX`, `tuple_format_ref(format, count)` returns
with the reference count `r + count`, and it calls `tuple_format_delete` on
the format exactly once if `r + count = 0` and not at all otherwise. -/
theorem tuple_format_ref_spec (format : tuple_format) (count : Int)
    (deleted : List tuple_format) (h0 : 0 ≤ format.refs + count)
    (h1 : format.refs + count ≤ FORMAT_REF_MAX) :
    ∃ format1 deleted1, tuple_format_ref format count deleted = some (format1, deleted1) ∧
      format1.refs = format.refs + count ∧
      deleted1 = (if format.refs + count = 0 then deleted ++ [format1] else deleted) ∧
      deleted1.length = deleted.length + (if format.refs + count = 0 then 1 else 0) := by
  refine ⟨_, _, tuple_format_ref_of_range format count deleted h0 h1, rfl, rfl, ?_⟩
  by_cases hz : format.refs + count = 0
  · simp [hz]
  · simp [hz]

/-- Witness of C6: the count 0 on a format with no reference destroys
it. -/
theorem tuple_format_ref_spec_witness :
    ∃ format1 deleted1,
      tuple_format_ref { format_pos2 with refs := 0 } 0 [] = some (format1, deleted1) ∧
      format1.refs = 0 ∧ deleted1.length = 1 := by
  obtain ⟨f, d, h, hr, _, hl⟩ := tuple_format_ref_spec { format_pos2 with refs := 0 } 0 []
    (by decide) (by decide)
  exact ⟨f, d, h, hr, hl⟩

/-- C7 (counterexample): on a fresh format (`refs = 0`) the empty sequence
has sum zero and calls `tuple_format_delete` zero times; in the sequence
`+1, -1, +1, -1` the delete call happens already in the second call, and the
whole sequence makes two; the sequence `-1, +1` aborts in its first call; the
sequence of `2^31` times `+1` followed by `2^31` times `-1` aborts at the
assertion on `FORMAT_REF_MAX`. -/
theorem tuple_format_ref_lifecycle_counterexample :
    (tuple_format_ref_seq { format_pos2 with refs := 0 } [] []).map (fun st => st.2.length)
      = some 0 ∧
    (tuple_format_ref_seq { format_pos2 with refs := 0 } [] [1, -1]).map
      (fun st => st.2.length) = some 1 ∧
    (tuple_format_ref_seq { format_pos2 with refs := 0 } [] [1, -1, 1, -1]).map
      (fun st => st.2.length) = some 2 ∧
    (tuple_format_ref_seq { format_pos2 with refs := 0 } [] [-1, 1]).map
      (fun st => st.2.length) = none ∧
    tuple_format_ref_seq { format_pos2 with refs := 0 } []
      (List.replicate 2147483648 1 ++ List.replicate 2147483648 (-1)) = none :=
  ⟨by decide, by decide, by decide, by decide, tuple_format_ref_seq_overflow _ rfl⟩

/-- C7 (amended): for every non-empty sequence of `tuple_format_ref(+1)` and
`tuple_format_ref(-1)` calls applied to a fresh format (`refs = 0`) whose
counts sum to zero and whose proper non-empty prefixes all have a sum in
`[1, FORMAT_REF_MAX]`, no call aborts, `tuple_format_delete` is called
exactly once, in the last call, which is a `-1`, and in no earlier call. -/
theorem tuple_format_ref_lifecycle (format : tuple_format) (deleted : List tuple_format)
    (counts : List Int) (hfresh : format.refs = 0)
    (hpm : ∀ c ∈ counts, c = 1 ∨ c = -1) (hne : counts ≠ [])
    (hsum : counts.sum = 0)
    (hsums : ∀ n, 0 < n → n < counts.length →
      0 < (counts.take n).sum ∧ (counts.take n).sum ≤ FORMAT_REF_MAX) :
    (∀ n, n < counts.length →
      ∃ f, tuple_format_ref_seq format deleted (counts.take n) = some (f, deleted)) ∧
    counts.getLast hne = -1 ∧
    ∃ f, tuple_format_ref_seq format deleted counts = some (f, deleted ++ [f]) ∧
      f.refs = 0 := by
  have hmax : FORMAT_REF_MAX = 2147483647 := rfl
  have hpre : ∀ n, n < counts.length →
      tuple_format_ref_seq format deleted (counts.take n) =
        some ({ format with refs := format.refs + (counts.take n).sum }, deleted) := by
    intro n hn
    apply tuple_format_ref_seq_positive
    intro m hm hlen
    have hmn : m ≤ n := by
      rw [List.length_take] at hlen
      omega
    rw [List.take_take, min_eq_left hmn, hfresh]
    have := hsums m hm (by omega)
    omega
  have hlen : 0 < counts.length := List.length_pos.mpr hne
  have hsplit : counts = counts.take (counts.length - 1) ++ [counts.getLast hne] := by
    rw [← List.dropLast_eq_take]
    exact (List.dropLast_append_getLast hne).symm
  have hlast := hpm _ (List.getLast_mem hne)
  have hsum2 : (counts.take (counts.length - 1)).sum + counts.getLast hne = 0 := by
    have h := hsum
    rw [hsplit, List.sum_append] at h
    simpa using h
  have hinit : 0 < (counts.take (counts.length - 1)).sum := by
    by_cases h1 : counts.length = 1
    · rw [h1] at hsum2
      simp at hsum2
      omega
    · exact (hsums (counts.length - 1) (by omega) (by omega)).1
  have hl : counts.getLast hne = -1 := by omega
  refine ⟨fun n hn => ⟨_, hpre n hn⟩, hl, ?_⟩
  rw [hsplit, tuple_format_ref_seq_append, hpre _ (by omega), hl]
  simp only [Option.some_bind, tuple_format_ref_seq]
  rw [tuple_format_ref_of_range _ (-1) deleted (by simp only; omega) (by simp only; omega),
    if_pos (by simp only; omega)]
  exact ⟨_, rfl, by simp only; omega⟩

/-- Witness of C7 (amended): the sequence `+1, +1, -1, -1` on a fresh
format. -/
theorem tuple_format_ref_lifecycle_witness :
    ∃ f, tuple_format_ref_seq { format_pos2 with refs := 0 } [] [1, 1, -1, -1]
      = some (f, [f]) ∧ f.refs = 0 :=
  (tuple_format_ref_lifecycle { format_pos2 with refs := 0 } [] [1, 1, -1, -1] rfl
    (by decide) (by decide) (by decide)
    (by
      intro n hn hlen
      have h4 : n < 4 := hlen
      interval_cases n <;> decide)).2.2

/-- C8: for every reference count `r` in `[0, FORMAT_REF_MAX]` and every
32-bit signed count, the two assertions of `tuple_format_ref` both pass if
and only if `0 <= r + count <= FORMAT_REF_MAX` in exact arithmetic; a call
that does not abort leaves `refs` in `[0, FORMAT_REF_MAX]`, and a count that
would make `refs` negative or exceed the bound aborts. -/
theorem tuple_format_ref_bound (format : tuple_format) (count : Int)
    (deleted : List tuple_format) (hr0 : 0 ≤ format.refs) (hr1 : format.refs ≤ FORMAT_REF_MAX)
    (hc0 : -2147483648 ≤ count) (hc1 : count ≤ 2147483647) :
    ((ref_assert_nonneg format.refs count = true ∧ ref_assert_max format.refs count = true) ↔
      (0 ≤ format.refs + count ∧ format.refs + count ≤ FORMAT_REF_MAX)) ∧
    (∀ st, tuple_format_ref format count deleted = some st →
      0 ≤ st.1.refs ∧ st.1.refs ≤ FORMAT_REF_MAX) ∧
    ((format.refs + count < 0 ∨ FORMAT_REF_MAX < format.refs + count) →
      tuple_format_ref format count deleted = none) := by
  have hmax : FORMAT_REF_MAX = 2147483647 := rfl
  have hiff : ref_assert_nonneg format.refs count = true ↔
      (0 ≤ format.refs + count ∧ format.refs + count ≤ FORMAT_REF_MAX) := by
    rw [ref_assert_nonneg_iff]
    unfold wrap_int32
    omega
  have hout : (format.refs + count < 0 ∨ FORMAT_REF_MAX < format.refs + count) →
      tuple_format_ref format count deleted = none := by
    intro h
    apply tuple_format_ref_abort
    left
    by_contra hn
    have := hiff.mp (by simpa using hn)
    omega
  refine ⟨⟨fun h => hiff.mp h.1, fun h => ref_asserts_of_range _ _ h.1 h.2⟩, ?_, hout⟩
  intro st hst
  by_cases hin : 0 ≤ format.refs + count ∧ format.refs + count ≤ FORMAT_REF_MAX
  · rw [tuple_format_ref_of_range format count deleted hin.1 hin.2] at hst
    cases hst
    exact hin
  · rw [hout (by omega)] at hst
    cases hst

/-- Witness of C8: on a format with one reference the count `INT32_MAX` does
not pass the assertions, and the count `-1` does. -/
theorem tuple_format_ref_bound_witness :
    tuple_format_ref format_pos2 2147483647 [] = none ∧
    ref_assert_nonneg format_pos2.refs (-1) = true ∧
    ref_assert_max format_pos2.refs (-1) = true :=
  ⟨(tuple_format_ref_bound format_pos2 2147483647 [] (by decide) (by decide) (by decide)
      (by decide)).2.2 (Or.inr (by decide)),
   (tuple_format_ref_bound format_pos2 (-1) [] (by decide) (by decide) (by decide)
      (by decide)).1.mpr (by decide)⟩

/-- C9 (counterexample): `tuple_format_by_id(1)` returns, without any
check, the object stored at index 1, whose own id is 2. -/
theorem tuple_format_by_id_counterexample :
    tuple_format_by_id registry_mismatch 1 = 7 ∧
    (registry_mismatch.heap (tuple_format_by_id registry_mismatch 1)).id = 2 := by
  decide

/-- C9 (amended): `tuple_format_by_id(id)` is the array element
`tuple_formats[id]`, returned unchecked; the consistency assertion is made by
`tuple_format_id(format)`, which aborts exactly when
`tuple_formats[format->id]` is not `format`, and whenever it returns an id,
that id is `format->id`, `tuple_format_by_id` of that id is `format`, and the
id of the object looked up equals the requested id. -/
theorem tuple_format_id_by_id (reg : registry) (format : Ptr) :
    (∀ id, tuple_format_by_id reg id = reg.tuple_formats id) ∧
    (tuple_format_id reg format = none ↔
      reg.tuple_formats (reg.heap format).id ≠ format) ∧
    (∀ id, tuple_format_id reg format = some id →
      id = (reg.heap format).id ∧ tuple_format_by_id reg id = format ∧
      (reg.heap (tuple_format_by_id reg id)).id = id) := by
  refine ⟨fun _ => rfl, ?_, ?_⟩
  · unfold tuple_format_id
    by_cases h : reg.tuple_formats (reg.heap format).id = format
    · simp [h]
    · simp [h]
  · intro id hid
    unfold tuple_format_id at hid
    by_cases h : reg.tuple_formats (reg.heap format).id = format
    · rw [if_pos h] at hid
      have hid2 : (reg.heap format).id = id := Option.some.inj hid
      subst hid2
      refine ⟨rfl, h, ?_⟩
      unfold tuple_format_by_id
      rw [h]
    · rw [if_neg h] at hid
      cases hid

/-- Witness of C9 (amended): in the consistent registry the format at
address 128 has id 1, and the lookup of id 1 is address 128. -/
theorem tuple_format_id_by_id_witness :
    tuple_format_id registry_consistent 128 = some 1 ∧
    tuple_format_by_id registry_consistent 1 = 128 :=
  ⟨by decide,
   ((tuple_format_id_by_id registry_consistent 128).2.2 1 (by decide)).2.1⟩

/-- C10: for every format with `field_count = 3` in which position 2 has an
offset slot and position 1 has none, and every record of exactly 3 fields
whose field map holds in that slot the byte offset of field 2,
`tuple_field_raw(.., 2)` returns the start of the third field without
decoding (the result is the same whatever the bytes of the record are),
`tuple_field_raw(.., 1)` returns the start of the second field, reached by
one `mp_next` from the first field, and `tuple_field_raw(.., 5)` returns
NULL.  The access to field 1 is taken with the error injection off; the
results for fields 2 and 5 hold in either state of it. -/
theorem tuple_field_raw_scenario (mp : MsgPuck) (format : tuple_format)
    (mem : Mem) (tuple : Ptr) (field_map : FieldMap)
    (hfc : format.field_count = 3)
    (h1 : (format.fields 1).offset_slot = INT32_MAX)
    (h2 : (format.fields 2).offset_slot ≠ INT32_MAX)
    (hsize : (mp.mp_decode_array mem tuple).1 = 3)
    (hfm : tuple + field_map (format.fields 2).offset_slot = linear_skip mp mem tuple 2) :
    (∀ errinj : Bool, tuple_field_raw mp errinj format mem tuple field_map 2
      = some (linear_skip mp mem tuple 2)) ∧
    (∀ (errinj : Bool) (mem2 : Mem), tuple_field_raw mp errinj format mem2 tuple field_map 2
      = some (tuple + field_map (format.fields 2).offset_slot)) ∧
    tuple_field_raw mp false format mem tuple field_map 1
      = some (mp.mp_next mem (mp.mp_decode_array mem tuple).2) ∧
    tuple_field_raw mp false format mem tuple field_map 1
      = some (linear_skip mp mem tuple 1) ∧
    (∀ errinj : Bool, tuple_field_raw mp errinj format mem tuple field_map 5 = none) := by
  have k2 : ∀ (e : Bool) (m : Mem), tuple_field_raw mp e format m tuple field_map 2 =
      some (tuple + field_map (format.fields 2).offset_slot) := by
    intro e m
    rw [tuple_field_raw_direct mp e format m tuple field_map 2 (by omega) (Or.inr h2),
      if_neg (by omega)]
  have k1 : tuple_field_raw mp false format mem tuple field_map 1 =
      some (linear_skip mp mem tuple 1) := by
    rw [tuple_field_raw_fallback mp false format mem tuple field_map 1
      (Or.inr ⟨by omega, h1⟩), tuple_field_raw_slow_eq]
    simp only [Bool.false_eq_true, if_false]
    rw [if_neg (by omega)]
  refine ⟨fun e => by rw [k2 e mem, hfm], k2, k1, k1, ?_⟩
  intro e
  rw [tuple_field_raw_fallback mp e format mem tuple field_map 5 (Or.inl (by omega)),
    tuple_field_raw_slow_eq]
  by_cases he : e = true
  · rw [if_pos he]
  · rw [if_neg he, if_pos (by omega)]

/-- Witness of C10: the record `["a", "b", 42]`, bytes `93 a1 61 a1 62 2a`,
with the slot value 5: field 2 is at address 5, field 1 at address 3, field 5
is absent. -/
theorem tuple_field_raw_scenario_witness :
    tuple_field_raw (msgpuck 8) false format_pos2 record_a_b_42 0 (fun _ => 5) 2 = some 5 ∧
    tuple_field_raw (msgpuck 8) false format_pos2 record_a_b_42 0 (fun _ => 5) 1 = some 3 ∧
    tuple_field_raw (msgpuck 8) false format_pos2 record_a_b_42 0 (fun _ => 5) 5 = none := by
  obtain ⟨a, _, b, _, c⟩ := tuple_field_raw_scenario (msgpuck 8) format_pos2 record_a_b_42 0
    (fun _ => 5) (by decide) (by decide) (by decide) (by decide) (by decide)
  exact ⟨(a false).trans (by decide), b.trans (by decide), c false⟩

/-- C11: `FORMAT_ID_MAX = 65534` and `FORMAT_ID_NIL = 65535`, the largest
value of the 16-bit id field; every id in `[0, FORMAT_ID_MAX]` is different
from `FORMAT_ID_NIL` and is unchanged by the conversion to `uint16_t`. -/
theorem format_id_space :
    FORMAT_ID_MAX = 65534 ∧ FORMAT_ID_NIL = 65535 ∧ FORMAT_ID_NIL = 2 ^ 16 - 1 ∧
    (∀ id : Nat, id ≤ FORMAT_ID_MAX → id ≠ FORMAT_ID_NIL ∧ id % 2 ^ 16 = id) ∧
    ¬ FORMAT_ID_NIL ≤ FORMAT_ID_MAX := by
  have hmax : FORMAT_ID_MAX = 65534 := rfl
  have hnil : FORMAT_ID_NIL = 65535 := rfl
  refine ⟨hmax, hnil, by decide, ?_, by decide⟩
  intro id hid
  rw [hmax] at hid
  rw [hnil]
  omega

/-- Witness of C11: the largest assignable id, 65534. -/
theorem format_id_space_witness :
    (65534 : Nat) ≠ FORMAT_ID_NIL ∧ 65534 % 2 ^ 16 = 65534 :=
  format_id_space.2.2.2.1 65534 (by decide)

/-- C12: for every format in which each offset slot below `field_count` is
either `INT32_MAX` or a negative slot `s` with `4 * (-s) <= field_map_size`,
`tuple_field_raw` reads at most one field-map entry: `field_map[s]` for the
slot `s` of field `i` when `0 < i < field_count` and that slot is not
`INT32_MAX`, and nothing for `i = 0`, for `i >= field_count` and for a field
without a slot; the four bytes of the entry read lie within the
`field_map_size` bytes that immediately precede the `field_map` pointer. -/
theorem tuple_field_raw_reads_bounds (mp : MsgPuck) (errinj : Bool) (format : tuple_format)
    (mem : Mem) (tuple : Ptr) (field_map : FieldMap) (i : Nat)
    (hslots : ∀ j, j < format.field_count →
      (format.fields j).offset_slot = INT32_MAX ∨
      ((format.fields j).offset_slot < 0 ∧
        4 * (-(format.fields j).offset_slot) ≤ (format.field_map_size : Int))) :
    (tuple_field_raw_reads mp errinj format mem tuple field_map i).1 =
      tuple_field_raw mp errinj format mem tuple field_map i ∧
    (tuple_field_raw_reads mp errinj format mem tuple field_map i).2 =
      (if 0 < i ∧ i < format.field_count ∧ (format.fields i).offset_slot ≠ INT32_MAX then
        [(format.fields i).offset_slot]
      else []) ∧
    (tuple_field_raw_reads mp errinj format mem tuple field_map i).2.length ≤ 1 ∧
    (∀ s ∈ (tuple_field_raw_reads mp errinj format mem tuple field_map i).2,
      -(format.field_map_size : Int) ≤ 4 * s ∧ 4 * s + 4 ≤ 0) := by
  have hreads : (tuple_field_raw_reads mp errinj format mem tuple field_map i).2 =
      (if 0 < i ∧ i < format.field_count ∧ (format.fields i).offset_slot ≠ INT32_MAX then
        [(format.fields i).offset_slot]
      else []) := by
    unfold tuple_field_raw_reads
    by_cases hlt : i < format.field_count
    · by_cases h0 : i = 0
      · rw [if_pos hlt, if_pos h0, if_neg (by omega)]
      · by_cases hs : (format.fields i).offset_slot ≠ INT32_MAX
        · rw [if_pos hlt, if_neg h0, if_pos hs, if_pos ⟨by omega, hlt, hs⟩]
        · rw [if_pos hlt, if_neg h0, if_neg hs, if_neg (fun h => hs h.2.2)]
    · rw [if_neg hlt, if_neg (fun h => hlt h.2.1)]
  refine ⟨?_, hreads, ?_, ?_⟩
  · unfold tuple_field_raw_reads tuple_field_raw
    by_cases hlt : i < format.field_count
    · by_cases h0 : i = 0
      · simp only [if_pos hlt, if_pos h0]
      · by_cases hs : (format.fields i).offset_slot ≠ INT32_MAX
        · simp only [if_pos hlt, if_neg h0, if_pos hs]
        · simp only [if_pos hlt, if_neg h0, if_neg hs]
    · simp only [if_neg hlt]
  · rw [hreads]
    split <;> simp
  · intro s hs
    rw [hreads] at hs
    by_cases hc : 0 < i ∧ i < format.field_count ∧ (format.fields i).offset_slot ≠ INT32_MAX
    · rw [if_pos hc] at hs
      have hse : s = (format.fields i).offset_slot := by simpa using hs
      rcases hslots i hc.2.1 with hmax | ⟨hneg, hsz⟩
      · exact absurd hmax hc.2.2
      · rw [hse]
        omega
    · rw [if_neg hc] at hs
      simp at hs

/-- Witness of C12: field 2 of the record `["a", "b", 42]` under the format
that gives position 2 the slot `-1` and a field map of 4 bytes: the only
entry read is `field_map[-1]`. -/
theorem tuple_field_raw_reads_bounds_witness :
    (tuple_field_raw_reads (msgpuck 8) false format_pos2 record_a_b_42 0 (fun _ => 5) 2).2
      = [-1] ∧
    format_pos2.field_map_size = 4 ∧
    (∀ s ∈ (tuple_field_raw_reads (msgpuck 8) false format_pos2 record_a_b_42 0
        (fun _ => 5) 2).2,
      -(format_pos2.field_map_size : Int) ≤ 4 * s ∧ 4 * s + 4 ≤ 0) :=
  ⟨by decide, by decide,
   (tuple_field_raw_reads_bounds (msgpuck 8) false format_pos2 record_a_b_42 0 (fun _ => 5) 2
      (by
        intro j hj
        have h3 : j < 3 := hj
        interval_cases j <;> decide)).2.2.2⟩

/-- C13: with the error injection off, for every record whose array length
is at least 1 and every field maps, `tuple_field_raw(.., 0)` gives the same
result for a format with `field_count = 0` (fallback path: decode the
length, zero skips) as for any format with `field_count >= 1` (bypass path);
the two differ only on the empty array, where the fallback returns NULL and
the bypass returns the position after the header. -/
theorem tuple_field_raw_zero_paths (mp : MsgPuck)
    (format0 format1 : tuple_format) (mem : Mem) (tuple : Ptr) (field_map0 field_map1 : FieldMap)
    (h0 : format0.field_count = 0) (h1 : 1 ≤ format1.field_count) :
    (1 ≤ (mp.mp_decode_array mem tuple).1 →
      tuple_field_raw mp false format0 mem tuple field_map0 0 =
        tuple_field_raw mp false format1 mem tuple field_map1 0) ∧
    ((mp.mp_decode_array mem tuple).1 = 0 →
      tuple_field_raw mp false format0 mem tuple field_map0 0 = none ∧
      tuple_field_raw mp false format1 mem tuple field_map1 0 =
        some (mp.mp_decode_array mem tuple).2) ∧
    (tuple_field_raw mp false format0 mem tuple field_map0 0 ≠
        tuple_field_raw mp false format1 mem tuple field_map1 0 ↔
      (mp.mp_decode_array mem tuple).1 = 0) := by
  have hb : tuple_field_raw mp false format1 mem tuple field_map1 0 =
      some (mp.mp_decode_array mem tuple).2 := by
    rw [tuple_field_raw_direct mp false format1 mem tuple field_map1 0 (by omega) (Or.inl rfl)]
    rfl
  have hf : tuple_field_raw mp false format0 mem tuple field_map0 0 =
      (if (mp.mp_decode_array mem tuple).1 = 0 then none
       else some (mp.mp_decode_array mem tuple).2) := by
    rw [tuple_field_raw_fallback mp false format0 mem tuple field_map0 0 (Or.inl (by omega)),
      tuple_field_raw_slow_eq]
    simp only [Bool.false_eq_true, if_false]
    by_cases hs : (mp.mp_decode_array mem tuple).1 = 0
    · rw [if_pos (by omega), if_pos hs]
    · rw [if_neg (by omega), if_neg hs]
      rfl
  refine ⟨?_, ?_, ?_⟩
  · intro hs
    rw [hf, hb, if_neg (by omega)]
  · intro hs
    exact ⟨by rw [hf, if_pos hs], hb⟩
  · rw [hf, hb]
    by_cases hs : (mp.mp_decode_array mem tuple).1 = 0
    · rw [if_pos hs]
      simp [hs]
    · rw [if_neg hs]
      simp [hs]

/-- Witness of C13: field 0 of the record `["a", "b", 42]` is at address 1
under a format with `field_count = 0` and under the format with three
descriptors. -/
theorem tuple_field_raw_zero_paths_witness :
    tuple_field_raw (msgpuck 8) false (format_of 0 []) record_a_b_42 0 (fun _ => 0) 0 =
      tuple_field_raw (msgpuck 8) false format_pos2 record_a_b_42 0 (fun _ => 5) 0 ∧
    tuple_field_raw (msgpuck 8) false format_pos2 record_a_b_42 0 (fun _ => 5) 0 = some 1 :=
  ⟨(tuple_field_raw_zero_paths (msgpuck 8) (format_of 0 []) format_pos2 record_a_b_42 0
      (fun _ => 0) (fun _ => 5) (by decide) (by decide)).1 (by decide),
   by decide⟩

/-- C14: with error injection disabled, for a record of array length `size`
and `i + 1 < size`, when both `i` and `i + 1` are served by the linear-skip
path, `tuple_field_raw(.., i + 1)` is the position obtained by applying one
`mp_next` to the position `tuple_field_raw(.., i)`; the position of a field
served by that path is the same for every format and field map that serve it
by that path. -/
theorem tuple_field_raw_adjacent (mp : MsgPuck) (format : tuple_format) (mem : Mem)
    (tuple : Ptr) (field_map : FieldMap) (i : Nat)
    (hi : format.field_count ≤ i ∨ (i ≠ 0 ∧ (format.fields i).offset_slot = INT32_MAX))
    (hi1 : format.field_count ≤ i + 1 ∨ (format.fields (i + 1)).offset_slot = INT32_MAX)
    (hsize : i + 1 < (mp.mp_decode_array mem tuple).1) :
    (∃ p, tuple_field_raw mp false format mem tuple field_map i = some p ∧
      tuple_field_raw mp false format mem tuple field_map (i + 1) = some (mp.mp_next mem p)) ∧
    tuple_field_raw mp false format mem tuple field_map (i + 1) =
      (tuple_field_raw mp false format mem tuple field_map i).map (mp.mp_next mem) ∧
    (∀ (format2 : tuple_format) (field_map2 : FieldMap) (k : Nat),
      (format.field_count ≤ k ∨ (k ≠ 0 ∧ (format.fields k).offset_slot = INT32_MAX)) →
      (format2.field_count ≤ k ∨ (k ≠ 0 ∧ (format2.fields k).offset_slot = INT32_MAX)) →
      tuple_field_raw mp false format2 mem tuple field_map2 k =
        tuple_field_raw mp false format mem tuple field_map k) := by
  have key : ∀ (f : tuple_format) (fm : FieldMap) (k : Nat),
      (f.field_count ≤ k ∨ (k ≠ 0 ∧ (f.fields k).offset_slot = INT32_MAX)) →
      tuple_field_raw mp false f mem tuple fm k =
        if (mp.mp_decode_array mem tuple).1 ≤ k then none
        else some (linear_skip mp mem tuple k) := by
    intro f fm k hk
    rw [tuple_field_raw_fallback mp false f mem tuple fm k hk, tuple_field_raw_slow_eq]
    simp
  have hk1 : format.field_count ≤ i + 1 ∨
      (i + 1 ≠ 0 ∧ (format.fields (i + 1)).offset_slot = INT32_MAX) := by
    rcases hi1 with h | h
    · exact Or.inl h
    · exact Or.inr ⟨by omega, h⟩
  have e0 : tuple_field_raw mp false format mem tuple field_map i =
      some (linear_skip mp mem tuple i) := by
    rw [key format field_map i hi, if_neg (by omega)]
  have e1 : tuple_field_raw mp false format mem tuple field_map (i + 1) =
      some (mp.mp_next mem (linear_skip mp mem tuple i)) := by
    rw [key format field_map (i + 1) hk1, if_neg (by omega)]
    unfold linear_skip
    rw [Function.iterate_succ_apply']
  refine ⟨⟨_, e0, e1⟩, ?_, ?_⟩
  · rw [e0, e1]
    rfl
  · intro f2 fm2 k hk hk2
    rw [key f2 fm2 k hk2, key format field_map k hk]

/-- Witness of C14: under a format with `field_count = 0`, fields 1 and 2 of
the record `["a", "b", 42]` are at addresses 3 and 5, one `mp_next`
apart. -/
theorem tuple_field_raw_adjacent_witness :
    tuple_field_raw (msgpuck 8) false (format_of 0 []) record_a_b_42 0 (fun _ => 0) 2 =
      (tuple_field_raw (msgpuck 8) false (format_of 0 []) record_a_b_42 0 (fun _ => 0) 1).map
        ((msgpuck 8).mp_next record_a_b_42) ∧
    (msgpuck 8).mp_next record_a_b_42 3 = 5 :=
  ⟨(tuple_field_raw_adjacent (msgpuck 8) (format_of 0 []) record_a_b_42 0 (fun _ => 0) 1
      (Or.inl (by decide)) (Or.inl (by decide)) (by decide)).2.1,
   by decide⟩

/-- C15: for every format with reference count `r` and counts `a`, `b` with
`0 < r + a <= FORMAT_REF_MAX` and `0 <= r + a + b <= FORMAT_REF_MAX`, the
calls `tuple_format_ref(format, a)` then `tuple_format_ref(format, b)` leave
the same state (format and log of `tuple_format_delete` calls) as the single
call `tuple_format_ref(format, a + b)`, whose count is an `int` when `r` is
in `[0, FORMAT_REF_MAX]`; with `b = -a` and `r > 0` the state is the initial
one: `refs = r` and no delete call. -/
theorem tuple_format_ref_additive (format : tuple_format) (a b : Int)
    (deleted : List tuple_format)
    (ha0 : 0 < format.refs + a) (ha1 : format.refs + a ≤ FORMAT_REF_MAX)
    (hb0 : 0 ≤ format.refs + a + b) (hb1 : format.refs + a + b ≤ FORMAT_REF_MAX) :
    tuple_format_ref_seq format deleted [a, b] = tuple_format_ref format (a + b) deleted ∧
    (∃ format1 deleted1, tuple_format_ref format (a + b) deleted = some (format1, deleted1) ∧
      format1.refs = format.refs + a + b ∧
      deleted1.length = deleted.length + (if format.refs + a + b = 0 then 1 else 0)) ∧
    (0 ≤ format.refs → format.refs ≤ FORMAT_REF_MAX → wrap_int32 (a + b) = a + b) ∧
    (b = -a → 0 < format.refs →
      tuple_format_ref_seq format deleted [a, b] = some (format, deleted)) := by
  have hmax : FORMAT_REF_MAX = 2147483647 := rfl
  have hseq : tuple_format_ref_seq format deleted [a, b] =
      some ({ format with refs := format.refs + a + b },
        if format.refs + a + b = 0 then
          deleted ++ [{ format with refs := format.refs + a + b }]
        else deleted) := by
    simp only [tuple_format_ref_seq]
    rw [tuple_format_ref_of_range format a deleted (by omega) ha1, if_neg (by omega)]
    simp only
    rw [tuple_format_ref_of_range _ b deleted hb0 hb1]
  have hone : tuple_format_ref format (a + b) deleted =
      some ({ format with refs := format.refs + a + b },
        if format.refs + a + b = 0 then
          deleted ++ [{ format with refs := format.refs + a + b }]
        else deleted) := by
    rw [tuple_format_ref_of_range format (a + b) deleted (by omega) (by omega)]
    simp only [← add_assoc]
  refine ⟨by rw [hseq, hone], ⟨_, _, hone, rfl, ?_⟩, ?_, ?_⟩
  · by_cases hz : format.refs + a + b = 0
    · simp [hz]
    · simp [hz]
  · intro hr0 hr1
    unfold wrap_int32
    omega
  · intro hba hr
    rw [hseq, hba, if_neg (by omega)]
    have hrefs : format.refs + a + -a = format.refs := by omega
    rw [hrefs]

/-- Witness of C15: on a format with one reference, `+3` followed by `-3`
restores the format and calls no delete. -/
theorem tuple_format_ref_additive_witness :
    tuple_format_ref_seq format_pos2 [] [3, -3] = tuple_format_ref format_pos2 (3 + -3) [] ∧
    tuple_format_ref_seq format_pos2 [] [3, -3] = some (format_pos2, []) :=
  ⟨(tuple_format_ref_additive format_pos2 3 (-3) [] (by decide) (by decide) (by decide)
      (by decide)).1,
   (tuple_format_ref_additive format_pos2 3 (-3) [] (by decide) (by decide) (by decide)
      (by decide)).2.2.2 rfl (by decide)⟩

/-- C16: a call of `tuple_format_ref` that passes the assertions changes only
the `refs` member: `id`, `exact_field_count`, `field_count`,
`field_map_size` and the `fields` table are unchanged, so when the call
leaves `refs > 0` the result of `tuple_field_raw` for any record, field map
and field number is the same before and after the call. -/
theorem tuple_format_ref_frame (format : tuple_format) (count : Int)
    (deleted : List tuple_format) (format1 : tuple_format) (deleted1 : List tuple_format)
    (h : tuple_format_ref format count deleted = some (format1, deleted1)) :
    format1.id = format.id ∧
    format1.exact_field_count = format.exact_field_count ∧
    format1.field_count = format.field_count ∧
    format1.field_map_size = format.field_map_size ∧
    format1.fields = format.fields ∧
    format1 = { format with refs := format1.refs } ∧
    (0 < format1.refs →
      ∀ (mp : MsgPuck) (errinj : Bool) (mem : Mem) (tuple : Ptr) (field_map : FieldMap)
        (i : Nat),
        tuple_field_raw mp errinj format1 mem tuple field_map i =
          tuple_field_raw mp errinj format mem tuple field_map i) := by
  have hf : format1 = { format with refs := wrap_int32 (format.refs + count) } := by
    unfold tuple_format_ref at h
    split at h
    · cases h
    · split at h
      · cases h
      · simp only at h
        split at h
        · cases h
          rfl
        · cases h
          rfl
  subst hf
  exact ⟨rfl, rfl, rfl, rfl, rfl, rfl, fun _ _ _ _ _ _ _ => rfl⟩

/-- Witness of C16: `tuple_format_ref(format, +1)` on the format that indexes
position 2 keeps its three descriptors, and field 2 of `["a", "b", 42]` is
still found at address 5. -/
theorem tuple_format_ref_frame_witness :
    ∃ format1 deleted1, tuple_format_ref format_pos2 1 [] = some (format1, deleted1) ∧
      format1.refs = 2 ∧ format1.field_count = 3 ∧
      tuple_field_raw (msgpuck 8) false format1 record_a_b_42 0 (fun _ => 5) 2 = some 5 := by
  have h : tuple_format_ref format_pos2 1 [] = some ({ format_pos2 with refs := 2 }, []) :=
    tuple_format_ref_of_range format_pos2 1 [] (by decide) (by decide)
  obtain ⟨_, _, hfc, _, _, _, hraw⟩ := tuple_format_ref_frame format_pos2 1 [] _ _ h
  exact ⟨_, _, h, rfl, hfc, (hraw (by decide) (msgpuck 8) false record_a_b_42 0 (fun _ => 5)
    2).trans (by decide)⟩

/-- C17: `sequence_data_equal` is reflexive, symmetric and transitive, it
depends only on the ids and ignores the values, and it agrees with the key
comparison: `sequence_data_equal(d1, d2)` holds if and only if
`sequence_data_equal_key(d1, d2.id)` holds. -/
theorem sequence_data_equal_equivalence :
    (∀ d : sequence_data, sequence_data_equal d d = true) ∧
    (∀ d1 d2 : sequence_data,
      sequence_data_equal d1 d2 = true → sequence_data_equal d2 d1 = true) ∧
    (∀ d1 d2 d3 : sequence_data,
      sequence_data_equal d1 d2 = true → sequence_data_equal d2 d3 = true →
      sequence_data_equal d1 d3 = true) ∧
    (∀ (d1 d2 : sequence_data) (v1 v2 : Int),
      sequence_data_equal { d1 with value := v1 } { d2 with value := v2 } =
        sequence_data_equal d1 d2) ∧
    (∀ d1 d2 : sequence_data,
      sequence_data_equal d1 d2 = true ↔ d1.id = d2.id) ∧
    (∀ d1 d2 : sequence_data,
      sequence_data_equal d1 d2 = true ↔ sequence_data_equal_key d1 d2.id = true) := by
  refine ⟨?_, ?_, ?_, ?_, ?_, ?_⟩
  · intro d
    simp [sequence_data_equal]
  · intro d1 d2 h
    simp only [sequence_data_equal, decide_eq_true_iff] at h ⊢
    exact h.symm
  · intro d1 d2 d3 h12 h23
    simp only [sequence_data_equal, decide_eq_true_iff] at h12 h23 ⊢
    exact h12.trans h23
  · intro d1 d2 v1 v2
    rfl
  · intro d1 d2
    simp [sequence_data_equal]
  · intro d1 d2
    simp [sequence_data_equal, sequence_data_equal_key]

/-- Witness of C17: two sequence data with id 7 and different values are
equal, also through the key comparison. -/
theorem sequence_data_equal_equivalence_witness :
    sequence_data_equal ⟨7, 1⟩ ⟨7, 100⟩ = true ∧
    sequence_data_equal ⟨7, 100⟩ ⟨7, 1⟩ = true ∧
    sequence_data_equal_key ⟨7, 1⟩ 7 = true :=
  ⟨by decide,
   sequence_data_equal_equivalence.2.1 ⟨7, 1⟩ ⟨7, 100⟩ (by decide),
   (sequence_data_equal_equivalence.2.2.2.2.2 ⟨7, 1⟩ ⟨7, 100⟩).mp (by decide)⟩

end Tarantool
